import Mathlib

/-!
Verification development for the orders backend (`src/main.py`).

The service is a thin CRUD layer over a document store.  We embed the
store-record data model, the serializer (`serialize_id`), the listing
query builder and pagination (`list_orders`), the single-order fetch
(`get_order`), and the status update (`update_order_status`) as pure
Lean functions, and prove or refute the frozen claims about them.

Conventions of the embedding:
* A stored record (Python dict) is an ordered association list
  `Doc = List (String × BVal)`; Python dict key uniqueness is carried as
  an explicit `Nodup` hypothesis where a proof needs it.
* Machine-level details that are external collaborators (BSON timestamp
  rendering, the document store's regex engine) are modelled by explicit
  Lean functions documented at their definition sites.
* Fallible Python code (uncaught exceptions) is modelled with `Except`;
  HTTP error signalling (`HTTPException`) with an explicit result type.
-/

set_option autoImplicit false

namespace OrdersBackend

/-- The closed variant of values a stored record can hold: strings,
numbers, booleans, null, timezone-aware datetimes (as integer UTC
instants), store ObjectIds (carried by their 24-hex-character string
form), and nested arrays/objects. -/
inductive BVal where
  | str (s : String)
  | num (n : Int)
  | bool (b : Bool)
  | null
  | dt (t : Int)
  | oid (o : String)
  | arr (xs : List BVal)
  | obj (fs : List (String × BVal))

/-- A raw stored record: a Python dict as an ordered association list. -/
abbrev Doc := List (String × BVal)

/-- Python `doc[key]` lookup (first binding wins; dicts have unique keys). -/
def getVal : Doc → String → Option BVal
  | [], _ => none
  | (k, v) :: rest, key => if k = key then some v else getVal rest key

/-- Python `doc[key] = v`: replace the value in place if the key exists
(keeping its position), otherwise append the new binding at the end. -/
def setKey : Doc → String → BVal → Doc
  | [], key, v => [(key, v)]
  | (k, w) :: rest, key, v =>
      if k = key then (k, v) :: rest else (k, w) :: setKey rest key v

/-- Python `doc.pop(key)` without default: remove the binding and return
its value, or `none` (a `KeyError` in Python) when the key is absent. -/
def popKey : Doc → String → Option (BVal × Doc)
  | [], _ => none
  | (k, v) :: rest, key =>
      if k = key then some (v, rest)
      else (popKey rest key).map (fun p => (p.1, (k, v) :: p.2))

/-- Model of `datetime.astimezone(timezone.utc).isoformat()`: an
injective textual rendering of the UTC instant carrying the `+00:00`
UTC offset.  The exact digits layout of the date part is irrelevant to
every claim; only that the result is a string tagged with the UTC
offset and determined by the instant. -/
def isoOfInstant (t : Int) : String :=
  toString t ++ "+00:00"

/-- Model of Python `str(...)` on stored values.  In the source it is
applied only to the store-assigned `_id` (an ObjectId), which
stringifies to its 24-character hex form; the remaining branches give
the evident renderings and are never exercised by stored data. -/
def pyStr : BVal → String
  | .oid o => o
  | .str s => s
  | .num n => toString n
  | .bool b => if b then "True" else "False"
  | .null => "None"
  | .dt t => isoOfInstant t
  | .arr _ => "<list>"
  | .obj _ => "<dict>"

/-- The body of the datetime-conversion loop of `serialize_id`: a
datetime value is replaced by its ISO rendering, anything else is left
untouched (`isinstance(v, datetime)` test, src/main.py line 34). -/
def convOne : BVal → BVal
  | .dt t => .str (isoOfInstant t)
  | v => v

/-- The datetime-conversion loop of `serialize_id` (src/main.py lines
33–35): every top-level field value goes through `convOne`.  Note the
loop inspects only top-level values. -/
def convertDts (d : Doc) : Doc :=
  d.map (fun kv => (kv.1, convOne kv.2))

/-- `serialize_id` (src/main.py lines 28–36).  Input is `none` for
Python `None` or `some d` for a dict `d`; `if not doc` is true for
`None` and for the empty dict.  `doc.pop("_id")` raises `KeyError`
(modelled as `.error`) when `_id` is absent; otherwise the record gets
a stringified `id` binding and the top-level datetime conversion.  The
Python function mutates its argument in place and returns it, so the
returned value is also the post-call state of the input object. -/
def serialize_id : Option Doc → Except String (Option Doc)
  | none => .ok none
  | some d =>
      if d.isEmpty then .ok (some d)
      else
        match popKey d "_id" with
        | none => .error "KeyError: _id"
        | some (v, rest) =>
            .ok (some (convertDts (setKey rest "id" (BVal.str (pyStr v)))))

/-- A document applied as a cursor element in the listing comprehension
`[serialize_id(doc) for doc in cursor]`: the argument is always a dict
(never `None`), so the `Option` layer of `serialize_id` collapses. -/
def serializeDoc (d : Doc) : Except String Doc :=
  match serialize_id (some d) with
  | .ok (some d') => .ok d'
  | .ok none => .ok d
  | .error e => .error e

/-- The listing comprehension over all cursor documents; the first
raised `KeyError` aborts the whole request (an uncaught exception). -/
def serializeAll : List Doc → Except String (List Doc)
  | [] => .ok []
  | d :: ds =>
      match serializeDoc d with
      | .error e => .error e
      | .ok d' =>
          match serializeAll ds with
          | .error e => .error e
          | .ok ds' => .ok (d' :: ds')

mutual

/-- `true` when the value is, or contains at any depth, a raw datetime
or a raw store ObjectId — the value kinds the spec says must never
appear in serialized output. -/
def hasRaw : BVal → Bool
  | .dt _ => true
  | .oid _ => true
  | .arr xs => hasRawList xs
  | .obj fs => hasRawFields fs
  | _ => false

def hasRawList : List BVal → Bool
  | [] => false
  | x :: xs => hasRaw x || hasRawList xs

def hasRawFields : List (String × BVal) → Bool
  | [] => false
  | kv :: fs => hasRaw kv.2 || hasRawFields fs

end

/-- A record is wire-clean when no field value contains a raw datetime
or ObjectId at any depth. -/
def docClean (d : Doc) : Bool :=
  d.all (fun kv => !hasRaw kv.2)

/-- Whether a value is a raw datetime (the `isinstance(v, datetime)`
test). -/
def isDt : BVal → Bool
  | .dt _ => true
  | _ => false

/-- Hex-digit test for ObjectId parsing. -/
def isHexChar (c : Char) : Bool :=
  c.isDigit || ('a' ≤ c && c ≤ 'f') || ('A' ≤ c && c ≤ 'F')

/-- Model of the `bson.ObjectId(order_id)` constructor on a string
argument: it succeeds exactly on 24-character hexadecimal strings and
raises otherwise.  The parsed identifier is carried by its hex text. -/
def parseObjectId (s : String) : Option String :=
  if s.length = 24 && s.data.all isHexChar then some s else none

/-! ### The store's case-insensitive regex search

`list_orders` sends `q` to the store as `{"$regex": q, "$options": "i"}`.
We model the store's regex engine on the fragment those claims
exercise: a pattern is a sequence of characters in which `.` matches
any single character and every other character matches itself
case-insensitively; the search is unanchored (a match may start at any
position).  Every mainstream regex dialect agrees on this fragment. -/

/-- One pattern character against one text character, `i` option on. -/
def charMatchesCI (p c : Char) : Bool :=
  p = '.' || p.toLower = c.toLower

/-- Match the whole pattern against a prefix of the text. -/
def matchHere : List Char → List Char → Bool
  | [], _ => true
  | _ :: _, [] => false
  | p :: ps, c :: cs => charMatchesCI p c && matchHere ps cs

/-- Unanchored case-insensitive regex search of `pat` inside `s`. -/
def regexSearchCI (pat : List Char) : List Char → Bool
  | [] => matchHere pat []
  | c :: cs => matchHere pat (c :: cs) || regexSearchCI pat cs

/-- Case-insensitive prefix test on character lists (spec-side notion,
for comparison with the regex the code actually uses). -/
def ciPrefixOf : List Char → List Char → Bool
  | [], _ => true
  | _ :: _, [] => false
  | p :: ps, c :: cs => p.toLower = c.toLower && ciPrefixOf ps cs

/-- Case-insensitive substring occurrence (spec-side notion). -/
def ciSubstringOf (needle : List Char) : List Char → Bool
  | [] => ciPrefixOf needle []
  | c :: cs => ciPrefixOf needle (c :: cs) || ciSubstringOf needle cs

/-- The metacharacters of the store's regex dialect.  In the modelled
fragment only `.` changes meaning, but a pattern free of all of them is
what the spec calls a plain search term. -/
def isRegexMeta (c : Char) : Bool :=
  c = '.' || c = '^' || c = '$' || c = '*' || c = '+' || c = '?' ||
  c = '(' || c = ')' || c = '[' || c = ']' || c = '|' || c = '\\'

/-! ### Query builder (listing filter) -/

/-- Python truthiness of an `Optional[str]` parameter: `None` and the
empty string are falsy (`if q:` / `if status:` in the source). -/
def truthy : Option String → Bool
  | none => false
  | some s => !s.isEmpty

/-- The filter document built by `list_orders` (src/main.py lines
102–110): an optional `$or` of three case-insensitive regex conditions
and an optional exact `status` condition, ANDed at the top level. -/
structure ListFilter where
  qClause : Option String
  statusClause : Option String

/-- `filter_query` construction: each clause is added only when the
corresponding parameter is truthy. -/
def buildFilter (q status : Option String) : ListFilter :=
  { qClause := if truthy q then q else none
    statusClause := if truthy status then status else none }

/-- The store's evaluation of one regex condition on a named field: the
field must be present with a string value matched by the pattern. -/
def fieldRegexI (d : Doc) (field pat : String) : Bool :=
  match getVal d field with
  | some (.str s) => regexSearchCI pat.data s.data
  | _ => false

/-- The store's evaluation of the exact-match `status` condition on a
string-valued field. -/
def statusMatches (d : Doc) (s : String) : Bool :=
  match getVal d "status" with
  | some (.str s') => s' == s
  | _ => false

/-- The store's evaluation of the whole listing filter on one record:
`$or` over the three searched fields, ANDed with the status clause. -/
def matchesFilter (f : ListFilter) (d : Doc) : Bool :=
  (match f.qClause with
   | none => true
   | some q =>
       fieldRegexI d "order_number" q || fieldRegexI d "customer_name" q ||
       fieldRegexI d "email" q) &&
  (match f.statusClause with
   | none => true
   | some s => statusMatches d s)

/-! ### Sorting -/

/-- `sort.lstrip("-")` (src/main.py line 113): remove ALL leading `-`
characters to obtain the sort field name. -/
def sortFieldOf (sort : String) : String :=
  String.mk (sort.data.dropWhile (fun c => c = '-'))

/-- `sort.startswith("-")` (src/main.py line 114): descending exactly
when the raw sort spec begins with `-`. -/
def sortDescending (sort : String) : Bool :=
  sort.data.head? = some '-'

/-- Spec-side reading of claim C8's sort rule: strip at most ONE
leading `-`.  To be compared with `sortFieldOf`, which embeds the
code's `lstrip("-")` (strip ALL leading dashes). -/
def stripSingleDash (s : String) : String :=
  if s.data.head? = some '-' then String.mk s.data.tail else s

/-- Lexicographic order on character lists, used for string-valued sort
keys. -/
def charListLe : List Char → List Char → Bool
  | [], _ => true
  | _ :: _, [] => false
  | a :: as, b :: bs => if a = b then charListLe as bs else decide (a < b)

/-- BSON type rank used by the store when a sort key mixes value kinds;
a missing field sorts together with null, lowest. -/
def bvalRank : Option BVal → Nat
  | none => 0
  | some .null => 0
  | some (.num _) => 1
  | some (.str _) => 2
  | some (.obj _) => 3
  | some (.arr _) => 4
  | some (.oid _) => 5
  | some (.bool _) => 6
  | some (.dt _) => 7

/-- Model of the store's total preorder on sort-key values: first by
BSON type rank, then within the kinds a sort key actually takes
(numbers, strings, ObjectIds, booleans, datetimes) by the evident
order.  Same-rank objects/arrays compare as equal — no stored field
used as a sort key holds them. -/
def bvalLe (x y : Option BVal) : Bool :=
  if bvalRank x = bvalRank y then
    match x, y with
    | some (.num a), some (.num b) => decide (a ≤ b)
    | some (.str a), some (.str b) => charListLe a.data b.data
    | some (.oid a), some (.oid b) => charListLe a.data b.data
    | some (.bool a), some (.bool b) => !a || b
    | some (.dt a), some (.dt b) => decide (a ≤ b)
    | _, _ => true
  else decide (bvalRank x < bvalRank y)

/-- Record comparison for `.sort(sort_field, direction)`: compare the
sort-field values, reversed when the direction is descending. -/
def docLe (field : String) (descending : Bool) (d e : Doc) : Bool :=
  if descending then bvalLe (getVal e field) (getVal d field)
  else bvalLe (getVal d field) (getVal e field)

/-- Insert a record into an already-sorted run, after every record that
compares `≤` to it (so the sort is stable). -/
def insertSorted (le : Doc → Doc → Bool) (d : Doc) : List Doc → List Doc
  | [] => [d]
  | e :: es => if le e d then e :: insertSorted le d es else d :: e :: es

/-- The store's sorted cursor order: a stable insertion sort by the
sort field and direction.  The upstream tie-break is unspecified; the
model fixes first-inserted-first among equal keys. -/
def sortDocs (field : String) (descending : Bool) (ds : List Doc) : List Doc :=
  ds.foldl (fun acc d => insertSorted (docLe field descending) d acc) []

/-! ### The listing endpoint -/

/-- The response body of `GET /api/orders`. -/
structure ListResp where
  items : List Doc
  page : Nat
  page_size : Nat
  total : Nat

/-- `list_orders` (src/main.py lines 91–127), given the collection
contents.  `total` is `count_documents(filter_query)`; the cursor is
`find(filter_query).sort(...).skip((page-1)*page_size).limit(page_size)`;
each cursor document goes through `serialize_id`.  The router enforces
`page ≥ 1` and `1 ≤ page_size ≤ 100` before the handler runs.  An
uncaught serializer exception aborts the request (`.error`). -/
def list_orders (col : List Doc) (q status : Option String) (sort : String)
    (page page_size : Nat) : Except String ListResp :=
  let filter_query := buildFilter q status
  let matching := col.filter (matchesFilter filter_query)
  let total := matching.length
  let sorted := sortDocs (sortFieldOf sort) (sortDescending sort) matching
  let paged := (sorted.drop ((page - 1) * page_size)).take page_size
  match serializeAll paged with
  | .error e => .error e
  | .ok items => .ok { items := items, page := page, page_size := page_size, total := total }

/-! ### Single-order fetch and status update -/

/-- The document store as the handlers see it: the `order` collection
contents plus a flag simulating a store that raises on any operation
(network failure / unavailability). -/
structure Store where
  col : List Doc
  failing : Bool

/-- `{"_id": oid}` evaluated on one record: the stored identifier
equals the parsed one. -/
def docIdMatches (d : Doc) (oidHex : String) : Bool :=
  match getVal d "_id" with
  | some (.oid o) => o == oidHex
  | _ => false

/-- `find_one({"_id": oid})` result on the collection contents: the
first record with the given identifier. -/
def findDoc : List Doc → String → Option Doc
  | [], _ => none
  | d :: ds, oidHex => if docIdMatches d oidHex then some d else findDoc ds oidHex

/-- Python truthiness of a `find_one` result (`if not doc`): `None` and
the empty dict are falsy. -/
def docTruthy : Option Doc → Bool
  | none => false
  | some d => !d.isEmpty

/-- Outcome of a request handler: a 200 body, or an `HTTPException` /
uncaught exception with its status code and detail. -/
inductive ApiResult where
  | ok (body : Option Doc)
  | err (code : Nat) (detail : String)

/-- `get_order` (src/main.py lines 130–140).  The `try` block spans
both `ObjectId(order_id)` and the `find_one` call, and its
`except Exception` raises the 400 "Invalid order id"; so a parse
failure AND a store failure during the lookup both land there.  A falsy
result is 404; otherwise the record is serialized (a serializer
exception would escape as a 500). -/
def get_order (st : Store) (order_id : String) : ApiResult :=
  match parseObjectId order_id with
  | none => .err 400 "Invalid order id"
  | some oidHex =>
      if st.failing then .err 400 "Invalid order id"
      else
        let doc := findDoc st.col oidHex
        if !docTruthy doc then .err 404 "Order not found"
        else
          match serialize_id doc with
          | .ok out => .ok out
          | .error e => .err 500 e

/-- `{"$set": {"status": ..., "updated_at": ...}}` applied to one
record: dict-style assignment of the two fields. -/
def applySet (d : Doc) (status : String) (now : Int) : Doc :=
  setKey (setKey d "status" (BVal.str status)) "updated_at" (BVal.dt now)

/-- `update_one({"_id": oid}, {"$set": ...})` on the collection
contents: the first matching record gets the `$set`; the returned `Nat`
is `matched_count` (0 or 1). -/
def updateOneCol : List Doc → String → String → Int → List Doc × Nat
  | [], _, _, _ => ([], 0)
  | d :: ds, oidHex, status, now =>
      if docIdMatches d oidHex then (applySet d status now :: ds, 1)
      else
        let r := updateOneCol ds oidHex status now
        (d :: r.1, r.2)

/-- `update_order_status` (src/main.py lines 143–158).  Here the `try`
wraps only `ObjectId(order_id)`; a failing store makes `update_one`
raise, escaping as a 500.  On zero matches: 404.  Otherwise the record
is re-fetched and serialized.  Returns the response together with the
post-request store. -/
def update_order_status (st : Store) (order_id : String) (status : String)
    (now : Int) : ApiResult × Store :=
  match parseObjectId order_id with
  | none => (.err 400 "Invalid order id", st)
  | some oidHex =>
      if st.failing then (.err 500 "store operation failed", st)
      else
        let r := updateOneCol st.col oidHex status now
        let st2 : Store := { st with col := r.1 }
        if r.2 = 0 then (.err 404 "Order not found", st2)
        else
          match serialize_id (findDoc st2.col oidHex) with
          | .ok out => (.ok out, st2)
          | .error e => (.err 500 e, st2)


/-! ## Lemmas about the dict operations -/

theorem getVal_setKey_self (d : Doc) (k : String) (v : BVal) :
    getVal (setKey d k v) k = some v := by
  induction d with
  | nil => simp [setKey, getVal]
  | cons kv rest ih =>
      obtain ⟨k0, v0⟩ := kv
      by_cases h : k0 = k
      · simp [setKey, getVal, h]
      · simp [setKey, getVal, h, ih]

theorem getVal_setKey_ne (d : Doc) (k : String) (v : BVal) (k' : String)
    (h : k' ≠ k) : getVal (setKey d k v) k' = getVal d k' := by
  have hkk : ¬ (k = k') := fun h' => h h'.symm
  induction d with
  | nil => simp [setKey, getVal, hkk]
  | cons kv rest ih =>
      obtain ⟨k0, v0⟩ := kv
      by_cases h0 : k0 = k
      · have h1 : ¬ (k0 = k') := fun h' => h (h'.symm.trans h0)
        simp [setKey, getVal, h0, h1, hkk]
      · by_cases h1 : k0 = k'
        · simp [setKey, getVal, h0, h1, h]
        · simp [setKey, getVal, h0, h1, ih]

theorem mem_setKey (d : Doc) (k : String) (v : BVal) (kv : String × BVal)
    (h : kv ∈ setKey d k v) : kv = (k, v) ∨ kv ∈ d := by
  induction d with
  | nil => simpa [setKey] using h
  | cons kv0 rest ih =>
      obtain ⟨k0, v0⟩ := kv0
      by_cases h0 : k0 = k
      · subst h0
        rcases (by simpa [setKey] using h : kv = (k0, v) ∨ kv ∈ rest) with h1 | h1
        · exact Or.inl h1
        · exact Or.inr (List.mem_cons_of_mem _ h1)
      · rcases (by simpa [setKey, h0] using h :
            kv = (k0, v0) ∨ kv ∈ setKey rest k v) with h1 | h1
        · exact Or.inr (by simp [h1])
        · rcases ih h1 with h2 | h2
          · exact Or.inl h2
          · exact Or.inr (List.mem_cons_of_mem _ h2)

theorem getVal_none_iff_popKey_none (d : Doc) (k : String) :
    getVal d k = none ↔ popKey d k = none := by
  induction d with
  | nil => simp [getVal, popKey]
  | cons kv rest ih =>
      obtain ⟨k0, v0⟩ := kv
      by_cases h0 : k0 = k
      · simp [getVal, popKey, h0]
      · simpa [getVal, popKey, h0] using ih

/-- Characterization of a successful `popKey` step past a non-matching
head binding. -/
theorem popKey_cons_ne (k0 : String) (v0 : BVal) (tail : Doc) (k : String)
    (h0 : ¬ k0 = k) (v : BVal) (rest : Doc) :
    popKey ((k0, v0) :: tail) k = some (v, rest) ↔
      ∃ rest1, popKey tail k = some (v, rest1) ∧ rest = (k0, v0) :: rest1 := by
  simp only [popKey, if_neg h0]
  constructor
  · intro h
    cases htail : popKey tail k with
    | none => rw [htail] at h; simp at h
    | some p =>
        obtain ⟨v1, rest1⟩ := p
        rw [htail] at h
        simp only [Option.map_some'] at h
        have h3 := Option.some.inj h
        have hv : v1 = v := congrArg Prod.fst h3
        have hr : (k0, v0) :: rest1 = rest := congrArg Prod.snd h3
        exact ⟨rest1, by rw [hv], hr.symm⟩
  · rintro ⟨rest1, h1, h2⟩
    rw [h1, h2]
    simp

theorem popKey_of_getVal (d : Doc) (k : String) (v : BVal)
    (h : getVal d k = some v) : ∃ rest, popKey d k = some (v, rest) := by
  induction d with
  | nil => simp [getVal] at h
  | cons kv rest ih =>
      obtain ⟨k0, v0⟩ := kv
      by_cases h0 : k0 = k
      · have hv : v0 = v := by simpa [getVal, h0] using h
        exact ⟨rest, by simp [popKey, h0, hv]⟩
      · obtain ⟨rest', hr⟩ := ih (by simpa [getVal, h0] using h)
        exact ⟨(k0, v0) :: rest', (popKey_cons_ne k0 v0 rest k h0 v _).mpr
          ⟨rest', hr, rfl⟩⟩

theorem popKey_getVal (d : Doc) (k : String) (v : BVal) (rest : Doc)
    (h : popKey d k = some (v, rest)) : getVal d k = some v := by
  induction d generalizing rest with
  | nil => simp [popKey] at h
  | cons kv tail ih =>
      obtain ⟨k0, v0⟩ := kv
      by_cases h0 : k0 = k
      · have := by simpa [popKey, h0] using h
        simp [getVal, h0, this.1]
      · obtain ⟨rest1, h1, _⟩ := (popKey_cons_ne k0 v0 tail k h0 v rest).mp h
        simp [getVal, h0, ih rest1 h1]

theorem popKey_mem (d : Doc) (k : String) (v : BVal) (rest : Doc)
    (h : popKey d k = some (v, rest)) : ∀ kv ∈ rest, kv ∈ d := by
  induction d generalizing rest with
  | nil => simp [popKey] at h
  | cons kv0 tail ih =>
      obtain ⟨k0, v0⟩ := kv0
      by_cases h0 : k0 = k
      · have := by simpa [popKey, h0] using h
        intro kv hkv
        exact List.mem_cons_of_mem _ (this.2 ▸ hkv)
      · obtain ⟨rest1, h1, h2⟩ := (popKey_cons_ne k0 v0 tail k h0 v rest).mp h
        intro kv hkv
        rw [h2] at hkv
        rcases List.mem_cons.mp hkv with h3 | h3
        · exact h3 ▸ List.mem_cons_self _ _
        · exact List.mem_cons_of_mem _ (ih rest1 h1 kv h3)

theorem popKey_getVal_ne (d : Doc) (k : String) (v : BVal) (rest : Doc)
    (k' : String) (hk : k' ≠ k) (h : popKey d k = some (v, rest)) :
    getVal rest k' = getVal d k' := by
  induction d generalizing rest with
  | nil => simp [popKey] at h
  | cons kv0 tail ih =>
      obtain ⟨k0, v0⟩ := kv0
      by_cases h0 : k0 = k
      · have h1 := by simpa [popKey, h0] using h
        have h2 : ¬ (k0 = k') := fun h' => hk (h'.symm.trans h0)
        rw [← h1.2]
        simp [getVal, h2]
      · obtain ⟨rest1, h1, h2⟩ := (popKey_cons_ne k0 v0 tail k h0 v rest).mp h
        rw [h2]
        by_cases h3 : k0 = k'
        · simp [getVal, h3]
        · simp [getVal, h3, ih rest1 h1]

theorem getVal_none_not_mem (l : Doc) (k : String)
    (h : getVal l k = none) : ∀ kv ∈ l, kv.1 ≠ k := by
  induction l with
  | nil => simp
  | cons kv0 tail ih =>
      obtain ⟨k0, v0⟩ := kv0
      by_cases h0 : k0 = k
      · simp [getVal, h0] at h
      · intro kv hkv
        rcases List.mem_cons.mp hkv with h1 | h1
        · simpa [h1] using h0
        · exact ih (by simpa [getVal, h0] using h) kv h1

theorem getVal_of_mem_first (l : Doc) (k : String) (v : BVal)
    (h : getVal l k = some v) : (k, v) ∈ l := by
  induction l with
  | nil => simp [getVal] at h
  | cons kv0 tail ih =>
      obtain ⟨k0, v0⟩ := kv0
      by_cases h0 : k0 = k
      · have hv : v0 = v := by simpa [getVal, h0] using h
        subst h0; subst hv
        exact List.mem_cons_self _ _
      · exact List.mem_cons_of_mem _ (ih (by simpa [getVal, h0] using h))

theorem popKey_nodup_getVal_self (d : Doc) (k : String) (v : BVal)
    (rest : Doc) (hnodup : (d.map Prod.fst).Nodup)
    (h : popKey d k = some (v, rest)) : getVal rest k = none := by
  induction d generalizing rest with
  | nil => simp [popKey] at h
  | cons kv0 tail ih =>
      obtain ⟨k0, v0⟩ := kv0
      simp only [List.map_cons, List.nodup_cons] at hnodup
      by_cases h0 : k0 = k
      · have h1 := by simpa [popKey, h0] using h
        rw [← h1.2]
        subst h0
        cases hg : getVal tail k0 with
        | none => rfl
        | some w =>
            exact absurd (List.mem_map.mpr ⟨(k0, w),
              getVal_of_mem_first tail k0 w hg, rfl⟩) hnodup.1
      · obtain ⟨rest1, h1, h2⟩ := (popKey_cons_ne k0 v0 tail k h0 v rest).mp h
        rw [h2]
        simp [getVal, h0, ih rest1 hnodup.2 h1]

theorem getVal_convertDts (d : Doc) (k : String) :
    getVal (convertDts d) k = (getVal d k).map convOne := by
  induction d with
  | nil => simp [convertDts, getVal]
  | cons kv0 tail ih =>
      obtain ⟨k0, v0⟩ := kv0
      by_cases h0 : k0 = k
      · simp [convertDts, getVal, h0]
      · simpa [convertDts, getVal, h0] using ih

theorem mem_convertDts (d : Doc) (kv : String × BVal)
    (h : kv ∈ convertDts d) : ∃ kv0 ∈ d, kv = (kv0.1, convOne kv0.2) := by
  rcases List.mem_map.mp h with ⟨kv0, hmem, heq⟩
  exact ⟨kv0, hmem, heq.symm⟩

theorem convOne_of_not_raw (v : BVal) (h : hasRaw v = false) : convOne v = v := by
  cases v <;> simp_all [hasRaw, convOne]

/-! ## Lemmas about the serializer -/

theorem serialize_id_of_id (d : Doc) (v : BVal)
    (h : getVal d "_id" = some v) :
    ∃ rest, popKey d "_id" = some (v, rest) ∧
      serialize_id (some d) =
        .ok (some (convertDts (setKey rest "id" (BVal.str (pyStr v))))) := by
  obtain ⟨rest, hr⟩ := popKey_of_getVal d "_id" v h
  have hne : d.isEmpty = false := by
    cases d with
    | nil => simp [getVal] at h
    | cons kv tail => simp [List.isEmpty]
  exact ⟨rest, hr, by simp [serialize_id, hne, hr]⟩

theorem serializeDoc_ok (d : Doc) (h : (getVal d "_id").isSome) :
    ∃ d', serializeDoc d = .ok d' := by
  obtain ⟨v, hv⟩ := Option.isSome_iff_exists.mp h
  obtain ⟨rest, _, hs⟩ := serialize_id_of_id d v hv
  exact ⟨convertDts (setKey rest "id" (BVal.str (pyStr v))),
    by simp [serializeDoc, hs]⟩

theorem serializeAll_ok (l : List Doc)
    (h : ∀ d ∈ l, ∃ d', serializeDoc d = .ok d') :
    ∃ items, serializeAll l = .ok items ∧ items.length = l.length := by
  induction l with
  | nil => exact ⟨[], rfl, rfl⟩
  | cons d ds ih =>
      obtain ⟨d', hd⟩ := h d (List.mem_cons_self _ _)
      obtain ⟨items, hi, hlen⟩ := ih (fun e he => h e (List.mem_cons_of_mem _ he))
      exact ⟨d' :: items, by simp [serializeAll, hd, hi], by simp [hlen]⟩

/-! ## Lemmas about the regex model -/

theorem matchHere_eq_ciPrefixOf (p : List Char)
    (hp : ∀ c ∈ p, isRegexMeta c = false) (s : List Char) :
    matchHere p s = ciPrefixOf p s := by
  induction p generalizing s with
  | nil => cases s <;> rfl
  | cons c cs ih =>
      have hdot : ¬ (c = '.') := fun hc => by
        have := hp c (List.mem_cons_self _ _)
        rw [hc] at this
        exact absurd this (by decide)
      cases s with
      | nil => rfl
      | cons x xs =>
          simp [matchHere, ciPrefixOf, charMatchesCI, hdot,
            ih (fun e he => hp e (List.mem_cons_of_mem _ he))]

theorem regexSearchCI_eq_ciSubstringOf (p : List Char)
    (hp : ∀ c ∈ p, isRegexMeta c = false) (s : List Char) :
    regexSearchCI p s = ciSubstringOf p s := by
  induction s with
  | nil => simp [regexSearchCI, ciSubstringOf, matchHere_eq_ciPrefixOf p hp]
  | cons x xs ih =>
      simp [regexSearchCI, ciSubstringOf, matchHere_eq_ciPrefixOf p hp, ih]

/-! ## Lemmas about sorting and pagination -/

theorem mem_insertSorted (le : Doc → Doc → Bool) (d : Doc) (l : List Doc)
    (x : Doc) (h : x ∈ insertSorted le d l) : x = d ∨ x ∈ l := by
  induction l with
  | nil => simpa [insertSorted] using h
  | cons e es ih =>
      by_cases h0 : le e d = true
      · rcases (by simpa [insertSorted, h0] using h : x = e ∨ x ∈ insertSorted le d es)
          with h1 | h1
        · exact Or.inr (by simp [h1])
        · rcases ih h1 with h2 | h2
          · exact Or.inl h2
          · exact Or.inr (List.mem_cons_of_mem _ h2)
      · rcases (by simpa [insertSorted, h0] using h : x = d ∨ x = e ∨ x ∈ es)
          with h1 | h1
        · exact Or.inl h1
        · exact Or.inr (by simpa using h1)

theorem mem_sortDocs_aux (le : Doc → Doc → Bool) (ds : List Doc)
    (acc : List Doc) (x : Doc)
    (h : x ∈ ds.foldl (fun acc d => insertSorted le d acc) acc) :
    x ∈ acc ∨ x ∈ ds := by
  induction ds generalizing acc with
  | nil => exact Or.inl (by simpa using h)
  | cons d ds ih =>
      rcases ih (insertSorted le d acc) (by simpa using h) with h1 | h1
      · rcases mem_insertSorted le d acc x h1 with h2 | h2
        · exact Or.inr (by simp [h2])
        · exact Or.inl h2
      · exact Or.inr (List.mem_cons_of_mem _ h1)

theorem mem_sortDocs (field : String) (descending : Bool) (ds : List Doc)
    (x : Doc) (h : x ∈ sortDocs field descending ds) : x ∈ ds := by
  rcases mem_sortDocs_aux (docLe field descending) ds [] x h with h1 | h1
  · simp at h1
  · exact h1

/-! ## Lemmas about the status update -/

theorem getVal_applySet_status (d : Doc) (s : String) (n : Int) :
    getVal (applySet d s n) "status" = some (BVal.str s) := by
  unfold applySet
  rw [getVal_setKey_ne _ _ _ _ (by decide)]
  exact getVal_setKey_self _ _ _

theorem getVal_applySet_updated_at (d : Doc) (s : String) (n : Int) :
    getVal (applySet d s n) "updated_at" = some (BVal.dt n) := by
  unfold applySet
  exact getVal_setKey_self _ _ _

theorem getVal_applySet_other (d : Doc) (s : String) (n : Int) (k : String)
    (h1 : k ≠ "status") (h2 : k ≠ "updated_at") :
    getVal (applySet d s n) k = getVal d k := by
  unfold applySet
  rw [getVal_setKey_ne _ _ _ _ h2, getVal_setKey_ne _ _ _ _ h1]

theorem updateOneCol_first_match (pre post : List Doc) (d : Doc)
    (oidHex status : String) (now : Int)
    (hpre : ∀ d' ∈ pre, docIdMatches d' oidHex = false)
    (hd : docIdMatches d oidHex = true) :
    updateOneCol (pre ++ d :: post) oidHex status now =
      (pre ++ applySet d status now :: post, 1) := by
  induction pre with
  | nil => simp [updateOneCol, hd]
  | cons e pre' ih =>
      have he : docIdMatches e oidHex = false := hpre e (List.mem_cons_self _ _)
      have ih' := ih (fun d' hd' => hpre d' (List.mem_cons_of_mem _ hd'))
      simp [updateOneCol, he, ih']

theorem head_dropWhile_not (p : Char → Bool) (l : List Char) (a : Char)
    (h : (l.dropWhile p).head? = some a) : p a = false := by
  induction l with
  | nil => simp [List.dropWhile] at h
  | cons x xs ih =>
      by_cases h0 : p x = true
      · exact ih (by simpa [List.dropWhile_cons, h0] using h)
      · have hx : x = a := by simpa [List.dropWhile_cons, h0] using h
        rw [← hx]
        exact Bool.eq_false_iff.mpr h0

/-! ## Claims -/

/-- C4: an id string that fails to parse as a store ObjectId makes both
the single-order fetch and the status update return the 400
"Invalid order id" client error (never a 404 or 500), with no store
lookup or write attempted: the outcome is the same for every store
state, and the status update returns the store unchanged. -/
theorem invalid_id_is_client_error_without_store_access (s : String)
    (h : parseObjectId s = none) :
    (∀ st : Store, get_order st s = .err 400 "Invalid order id") ∧
    (∀ (st : Store) (status : String) (now : Int),
      update_order_status st s status now =
        (.err 400 "Invalid order id", st)) := by
  refine ⟨fun st => ?_, fun st status now => ?_⟩
  · simp [get_order, h]
  · simp [update_order_status, h]

/-- Witness for C4 at the spec's example `"not-an-id"`, on a concrete
healthy store and a concrete failing store. -/
theorem invalid_id_is_client_error_without_store_access_witness :
    get_order { col := [], failing := false } "not-an-id" =
      .err 400 "Invalid order id" ∧
    update_order_status { col := [], failing := true } "not-an-id" "shipped" 7 =
      (.err 400 "Invalid order id", { col := [], failing := true }) :=
  ⟨(invalid_id_is_client_error_without_store_access "not-an-id" (by decide)).1 _,
   (invalid_id_is_client_error_without_store_access "not-an-id" (by decide)).2 _ _ _⟩

/-- C5 (code bug): in `get_order` the `try` block also spans the
`find_one` call, so a store failure during the lookup of a well-formed
id is caught by the `except` intended for parse errors and surfaces as
a 400 "Invalid order id" instead of propagating as a 500.  By contrast
the status-update endpoint, whose `try` wraps only the parse, lets the
same failure propagate as a 500, which is what the spec describes for
both. -/
theorem get_order_store_failure_caught_as_400 :
    get_order { col := [], failing := true } "aabbccddeeff001122334455" =
      .err 400 "Invalid order id" ∧
    (update_order_status { col := [], failing := true }
        "aabbccddeeff001122334455" "shipped" 7).1 =
      .err 500 "store operation failed" :=
  ⟨rfl, rfl⟩

/-- C9: at the listing endpoint an empty-string `q` or `status` is
falsy in the handler's `if q:` / `if status:` guards, so no search
clause or status constraint is added and the result is identical to
omitting the parameter. -/
theorem empty_q_or_status_same_as_absent (col : List Doc) (sort : String)
    (page page_size : Nat) :
    (∀ status, list_orders col (some "") status sort page page_size =
      list_orders col none status sort page page_size) ∧
    (∀ q, list_orders col q (some "") sort page page_size =
      list_orders col q none sort page page_size) := by
  have he : "".isEmpty = true := by decide
  have h1 : ∀ status, buildFilter (some "") status = buildFilter none status := by
    intro status
    simp [buildFilter, truthy, he]
  have h2 : ∀ q, buildFilter q (some "") = buildFilter q none := by
    intro q
    simp [buildFilter, truthy, he]
  exact ⟨fun status => by simp only [list_orders, h1],
         fun q => by simp only [list_orders, h2]⟩

/-- C10: the serializer demands the internal `_id` on any non-empty
record — without it, `doc.pop("_id")` raises `KeyError`; when `_id` is
present the error branch is unreachable and serialization succeeds. -/
theorem serialize_id_requires_internal_id (d : Doc) :
    (d.isEmpty = false → (getVal d "_id").isSome = false →
      serialize_id (some d) = .error "KeyError: _id") ∧
    ((getVal d "_id").isSome = true →
      ∃ out, serialize_id (some d) = .ok (some out)) := by
  constructor
  · intro hne hid
    have hnone : getVal d "_id" = none := by
      cases hg : getVal d "_id" with
      | none => rfl
      | some v => rw [hg] at hid; simp at hid
    have hp : popKey d "_id" = none := (getVal_none_iff_popKey_none d "_id").mp hnone
    simp [serialize_id, hne, hp]
  · intro hid
    obtain ⟨v, hv⟩ := Option.isSome_iff_exists.mp hid
    obtain ⟨rest, _, hs⟩ := serialize_id_of_id d v hv
    exact ⟨_, hs⟩

/-- Witness for C10: a non-empty record without `_id` errors; a record
with `_id` serializes. -/
theorem serialize_id_requires_internal_id_witness :
    serialize_id (some [("status", BVal.str "pending")]) =
      .error "KeyError: _id" ∧
    ∃ out, serialize_id (some [("_id", BVal.oid "aabbccddeeff001122334455")]) =
      .ok (some out) :=
  ⟨(serialize_id_requires_internal_id _).1 (by decide) (by decide),
   (serialize_id_requires_internal_id _).2 (by decide)⟩

/-- C2 (counterexample): `serialize_id` mutates its argument (it pops
`_id` in place and returns the same dict), so applying it twice to the
same raw record means the second call sees the first call's output; on
a concrete non-empty record the first call succeeds but the second
raises `KeyError` instead of succeeding with identical output. -/
theorem serialize_id_not_idempotent_cex :
    serialize_id (some [("_id", BVal.oid "aabbccddeeff001122334455"),
                        ("status", BVal.str "pending")]) =
      .ok (some [("status", BVal.str "pending"),
                 ("id", BVal.str "aabbccddeeff001122334455")]) ∧
    serialize_id (some [("status", BVal.str "pending"),
                        ("id", BVal.str "aabbccddeeff001122334455")]) =
      .error "KeyError: _id" :=
  ⟨rfl, rfl⟩

/-- C2 (amended): for every raw stored record with unique keys and the
internal `_id` present, the first application of the serializer
succeeds, but — because it removed `_id` from the (mutated) record — a
second application to the result fails with `KeyError` rather than
being idempotent; only the absent record is a fixed point. -/
theorem serialize_id_second_application_fails (d : Doc)
    (hnodup : (d.map Prod.fst).Nodup)
    (hid : (getVal d "_id").isSome = true) :
    serialize_id none = .ok none ∧
    ∃ out, serialize_id (some d) = .ok (some out) ∧
      getVal out "_id" = none ∧
      serialize_id (some out) = .error "KeyError: _id" := by
  obtain ⟨v, hv⟩ := Option.isSome_iff_exists.mp hid
  obtain ⟨rest, hr, hs⟩ := serialize_id_of_id d v hv
  refine ⟨rfl, convertDts (setKey rest "id" (BVal.str (pyStr v))), hs, ?_, ?_⟩
  · rw [getVal_convertDts]
    rw [getVal_setKey_ne _ _ _ _ (by decide)]
    rw [popKey_nodup_getVal_self d "_id" v rest hnodup hr]
    rfl
  · have hgid : getVal (convertDts (setKey rest "id" (BVal.str (pyStr v)))) "id" =
        some (BVal.str (pyStr v)) := by
      rw [getVal_convertDts, getVal_setKey_self]
      rfl
    have hgnone : getVal (convertDts (setKey rest "id" (BVal.str (pyStr v)))) "_id" =
        none := by
      rw [getVal_convertDts, getVal_setKey_ne _ _ _ _ (by decide),
        popKey_nodup_getVal_self d "_id" v rest hnodup hr]
      rfl
    cases hout : convertDts (setKey rest "id" (BVal.str (pyStr v))) with
    | nil => rw [hout] at hgid; simp [getVal] at hgid
    | cons kv tail =>
        rw [hout] at hgnone
        have hp : popKey (kv :: tail) "_id" = none :=
          (getVal_none_iff_popKey_none _ "_id").mp hgnone
        simp [serialize_id, hp, List.isEmpty]

/-- Witness for C2 (amended) on a concrete seeded-shaped record. -/
theorem serialize_id_second_application_fails_witness :
    ((([("_id", BVal.oid "aabbccddeeff001122334455"),
        ("created_at", BVal.dt 3)] : Doc).map Prod.fst).Nodup) ∧
    (serialize_id none = .ok none ∧
     ∃ out, serialize_id (some [("_id", BVal.oid "aabbccddeeff001122334455"),
          ("created_at", BVal.dt 3)]) = .ok (some out) ∧
        getVal out "_id" = none ∧
        serialize_id (some out) = .error "KeyError: _id") :=
  ⟨by decide, serialize_id_second_application_fails _ (by decide) (by decide)⟩

/-- C3 (counterexample): the conversion loop of `serialize_id` looks
only at top-level values, so a timestamp nested inside an array
survives serialization as a raw datetime and the output is not
wire-clean. -/
theorem serialize_id_keeps_nested_raw_cex :
    serialize_id (some [("_id", BVal.oid "aabbccddeeff001122334455"),
        ("items", BVal.arr [BVal.obj [("added_at", BVal.dt 5)]])]) =
      .ok (some [("items", BVal.arr [BVal.obj [("added_at", BVal.dt 5)]]),
                 ("id", BVal.str "aabbccddeeff001122334455")]) ∧
    docClean [("items", BVal.arr [BVal.obj [("added_at", BVal.dt 5)]]),
              ("id", BVal.str "aabbccddeeff001122334455")] = false :=
  ⟨rfl, rfl⟩

/-- C3 (amended): when every raw value of the input sits at top level —
the identifier only at `_id` and timestamps only as whole top-level
field values, as in every record this service stores — serialization
succeeds, the output is wire-clean at every depth, and each top-level
timestamp field is rendered as its ISO-8601 UTC string. -/
theorem serialize_id_clean_when_raw_top_level (d : Doc)
    (hnodup : (d.map Prod.fst).Nodup)
    (hid : (getVal d "_id").isSome = true)
    (hflat : ∀ kv ∈ d, kv.1 = "_id" ∨ isDt kv.2 = true ∨ hasRaw kv.2 = false) :
    ∃ out, serialize_id (some d) = .ok (some out) ∧ docClean out = true ∧
      ∀ k t, k ≠ "_id" → k ≠ "id" → getVal d k = some (BVal.dt t) →
        getVal out k = some (BVal.str (isoOfInstant t)) := by
  obtain ⟨v, hv⟩ := Option.isSome_iff_exists.mp hid
  obtain ⟨rest, hr, hs⟩ := serialize_id_of_id d v hv
  refine ⟨convertDts (setKey rest "id" (BVal.str (pyStr v))), hs, ?_, ?_⟩
  · rw [docClean, List.all_eq_true]
    intro kv hkv
    obtain ⟨kv0, hkv0, hconv⟩ := mem_convertDts _ kv hkv
    rcases mem_setKey _ _ _ _ hkv0 with h1 | h1
    · rw [hconv, h1]
      rfl
    · have hmem : kv0 ∈ d := popKey_mem d "_id" v rest hr kv0 h1
      have hkey : kv0.1 ≠ "_id" :=
        getVal_none_not_mem rest "_id"
          (popKey_nodup_getVal_self d "_id" v rest hnodup hr) kv0 h1
      rcases hflat kv0 hmem with h2 | h2 | h2
      · exact absurd h2 hkey
      · rw [hconv]
        cases hval : kv0.2 with
        | dt t => simp [convOne, hasRaw]
        | _ => rw [hval] at h2; simp [isDt] at h2
      · rw [hconv, convOne_of_not_raw _ h2]
        simp [h2]
  · intro k t hk1 hk2 hgd
    rw [getVal_convertDts, getVal_setKey_ne _ _ _ _ hk2,
      popKey_getVal_ne d "_id" v rest k hk1 hr, hgd]
    rfl

/-- Witness for C3 (amended) on a record shaped like the seeded demo
orders (identifier at `_id`, timestamps at top level, text elsewhere). -/
theorem serialize_id_clean_when_raw_top_level_witness :
    ((([("_id", BVal.oid "aabbccddeeff001122334455"),
        ("customer_name", BVal.str "Ava Nguyen"),
        ("created_at", BVal.dt 3)] : Doc).map Prod.fst).Nodup) ∧
    (∃ out, serialize_id (some [("_id", BVal.oid "aabbccddeeff001122334455"),
          ("customer_name", BVal.str "Ava Nguyen"),
          ("created_at", BVal.dt 3)]) = .ok (some out) ∧
        docClean out = true ∧
        ∀ k t, k ≠ "_id" → k ≠ "id" →
          getVal [("_id", BVal.oid "aabbccddeeff001122334455"),
                  ("customer_name", BVal.str "Ava Nguyen"),
                  ("created_at", BVal.dt 3)] k = some (BVal.dt t) →
          getVal out k = some (BVal.str (isoOfInstant t))) :=
  ⟨by decide, serialize_id_clean_when_raw_top_level _ (by decide) (by decide)
    (by decide)⟩

/-- C7 (counterexample): `q` is passed to the store as a regex pattern,
not a literal substring.  The term `"ya.k"` matches the seeded record
with customer name `"Maya Khan"` (the `.` matches the space), although
`"ya.k"` is not a case-insensitive substring of any of the three
searched fields — so "matches iff substring" fails for terms with
regex metacharacters. -/
theorem q_filter_is_regex_not_substring_cex :
    matchesFilter (buildFilter (some "ya.k") none)
      [("order_number", BVal.str "ORD-1003"),
       ("customer_name", BVal.str "Maya Khan"),
       ("email", BVal.str "maya@example.com")] = true ∧
    ciSubstringOf "ya.k".data "ORD-1003".data = false ∧
    ciSubstringOf "ya.k".data "Maya Khan".data = false ∧
    ciSubstringOf "ya.k".data "maya@example.com".data = false := by
  refine ⟨by decide, by decide, by decide, by decide⟩

/-- C7 (amended): a present `q` makes the filter match exactly when `q`
matches as a case-insensitive unanchored REGEX against at least one of
`order_number`, `customer_name`, `email`; a present `status` is ANDed
as an exact match.  For search terms free of regex metacharacters the
regex search coincides with case-insensitive substring search, which is
the spec's wording. -/
theorem list_filter_is_regex_disjunction (d : Doc) (q st : String)
    (hq : q.isEmpty = false) (hst : st.isEmpty = false) :
    matchesFilter (buildFilter (some q) (some st)) d =
      ((fieldRegexI d "order_number" q || fieldRegexI d "customer_name" q ||
        fieldRegexI d "email" q) && statusMatches d st) ∧
    matchesFilter (buildFilter (some q) none) d =
      (fieldRegexI d "order_number" q || fieldRegexI d "customer_name" q ||
        fieldRegexI d "email" q) ∧
    ∀ (pat s : List Char), (∀ c ∈ pat, isRegexMeta c = false) →
      regexSearchCI pat s = ciSubstringOf pat s := by
  refine ⟨?_, ?_, fun pat s hp => regexSearchCI_eq_ciSubstringOf pat hp s⟩
  · simp [matchesFilter, buildFilter, truthy, hq, hst]
  · simp [matchesFilter, buildFilter, truthy, hq]

/-- Witness for C7 (amended) at the spec's scenario term `"maya"` and
status `"shipped"` on a seeded-shaped record. -/
theorem list_filter_is_regex_disjunction_witness :
    "maya".isEmpty = false ∧
    (matchesFilter (buildFilter (some "maya") (some "shipped"))
        [("customer_name", BVal.str "Maya Khan"),
         ("status", BVal.str "shipped")] =
      ((fieldRegexI [("customer_name", BVal.str "Maya Khan"),
          ("status", BVal.str "shipped")] "order_number" "maya" ||
        fieldRegexI [("customer_name", BVal.str "Maya Khan"),
          ("status", BVal.str "shipped")] "customer_name" "maya" ||
        fieldRegexI [("customer_name", BVal.str "Maya Khan"),
          ("status", BVal.str "shipped")] "email" "maya") &&
       statusMatches [("customer_name", BVal.str "Maya Khan"),
          ("status", BVal.str "shipped")] "shipped") ∧
     matchesFilter (buildFilter (some "maya") none)
        [("customer_name", BVal.str "Maya Khan"),
         ("status", BVal.str "shipped")] =
      (fieldRegexI [("customer_name", BVal.str "Maya Khan"),
          ("status", BVal.str "shipped")] "order_number" "maya" ||
       fieldRegexI [("customer_name", BVal.str "Maya Khan"),
          ("status", BVal.str "shipped")] "customer_name" "maya" ||
       fieldRegexI [("customer_name", BVal.str "Maya Khan"),
          ("status", BVal.str "shipped")] "email" "maya") ∧
     ∀ (pat s : List Char), (∀ c ∈ pat, isRegexMeta c = false) →
       regexSearchCI pat s = ciSubstringOf pat s) :=
  ⟨rfl, list_filter_is_regex_disjunction _ "maya" "shipped" rfl rfl⟩

/-- C8 (counterexample): on the sort spec `"--created_at"` the code's
`lstrip("-")` removes BOTH leading dashes, whereas the claim's
single-dash stripping would leave `"-created_at"` as the field name. -/
theorem sortFieldOf_vs_single_dash_cex :
    sortFieldOf "--created_at" = "created_at" ∧
    stripSingleDash "--created_at" = "-created_at" ∧
    sortFieldOf "--created_at" ≠ stripSingleDash "--created_at" := by
  refine ⟨by decide, by decide, by decide⟩

theorem mem_takeWhile_pred (p : Char → Bool) (l : List Char) (b : Char)
    (h : b ∈ l.takeWhile p) : p b = true := by
  induction l with
  | nil => simp [List.takeWhile] at h
  | cons x xs ih =>
      by_cases h0 : p x = true
      · rcases (by simpa [List.takeWhile, h0] using h : b = x ∨ b ∈ xs.takeWhile p)
          with h1 | h1
        · rw [h1]; exact h0
        · exact ih h1
      · rw [List.takeWhile] at h
        rw [Bool.eq_false_iff.mpr h0] at h
        simp at h

/-- C8 (amended): the listing obtains the sort field by stripping ALL
leading dashes (the spec string is a run of dashes followed by the
field name, which never begins with a dash), and sorts descending
exactly when the spec string starts with `-`. -/
theorem sortFieldOf_strips_all_leading_dashes (sort : String) :
    (∃ k, sort.data = List.replicate k '-' ++ (sortFieldOf sort).data) ∧
    (sortFieldOf sort).data.head? ≠ some '-' ∧
    sortDescending sort = decide (sort.data.head? = some '-') := by
  refine ⟨⟨(sort.data.takeWhile (fun c => c = '-')).length, ?_⟩, ?_, rfl⟩
  · have h1 : sort.data.takeWhile (fun c => c = '-') =
        List.replicate (sort.data.takeWhile (fun c => c = '-')).length '-' := by
      apply List.eq_replicate_of_mem
      intro b hb
      exact of_decide_eq_true (mem_takeWhile_pred _ _ _ hb)
    calc sort.data
        = sort.data.takeWhile (fun c => c = '-') ++
            sort.data.dropWhile (fun c => c = '-') :=
          (List.takeWhile_append_dropWhile _ _).symm
      _ = List.replicate (sort.data.takeWhile (fun c => c = '-')).length '-' ++
            (sortFieldOf sort).data := by rw [← h1]; rfl
  · intro h
    have := head_dropWhile_not (fun c => c = '-') sort.data '-' h
    simp at this

/-- C1: for every filter and sort spec, every `page ≥ 1` and
`page_size` in 1..100, the listing succeeds (given that stored records
carry `_id`, as all store-inserted records do), its items are exactly
the serialized `page_size`-slice of the full filtered-and-sorted record
sequence starting at offset `(page-1)*page_size` (so the last page may
be shorter), and `total` counts all filter-matching records ignoring
pagination. -/
theorem list_orders_returns_page_slice (col : List Doc)
    (q status : Option String) (sort : String) (page page_size : Nat)
    (hpage : 1 ≤ page) (hps1 : 1 ≤ page_size) (hps2 : page_size ≤ 100)
    (hids : ∀ d ∈ col, (getVal d "_id").isSome = true) :
    ∃ items,
      serializeAll (((sortDocs (sortFieldOf sort) (sortDescending sort)
            (col.filter (matchesFilter (buildFilter q status)))).drop
          ((page - 1) * page_size)).take page_size) = .ok items ∧
      items.length ≤ page_size ∧
      list_orders col q status sort page page_size =
        .ok { items := items, page := page, page_size := page_size,
              total := (col.filter (matchesFilter (buildFilter q status))).length } := by
  have hsub : ∀ d ∈ ((sortDocs (sortFieldOf sort) (sortDescending sort)
      (col.filter (matchesFilter (buildFilter q status)))).drop
        ((page - 1) * page_size)).take page_size, d ∈ col := by
    intro d hd
    exact List.mem_of_mem_filter
      (mem_sortDocs _ _ _ d
        (List.mem_of_mem_drop (List.mem_of_mem_take hd)))
  obtain ⟨items, hall, hlen⟩ := serializeAll_ok _
    (fun d hd => serializeDoc_ok d (hids d (hsub d hd)))
  refine ⟨items, hall, ?_, ?_⟩
  · rw [hlen, List.length_take]
    exact min_le_left _ _
  · simp only [list_orders]
    rw [hall]

/-- Witness for C1 on a one-record collection, first page. -/
theorem list_orders_returns_page_slice_witness :
    (∀ d ∈ ([[("_id", BVal.oid "aabbccddeeff001122334455"),
               ("status", BVal.str "pending")]] : List Doc),
       (getVal d "_id").isSome = true) ∧
    (∃ items,
      serializeAll (((sortDocs (sortFieldOf "-created_at")
            (sortDescending "-created_at")
            (([[("_id", BVal.oid "aabbccddeeff001122334455"),
                ("status", BVal.str "pending")]] : List Doc).filter
              (matchesFilter (buildFilter none none)))).drop
          ((1 - 1) * 10)).take 10) = .ok items ∧
      items.length ≤ 10 ∧
      list_orders [[("_id", BVal.oid "aabbccddeeff001122334455"),
                    ("status", BVal.str "pending")]] none none "-created_at" 1 10 =
        .ok { items := items, page := 1, page_size := 10,
              total := (([[("_id", BVal.oid "aabbccddeeff001122334455"),
                  ("status", BVal.str "pending")]] : List Doc).filter
                (matchesFilter (buildFilter none none))).length }) :=
  ⟨by decide,
   list_orders_returns_page_slice _ none none "-created_at" 1 10
     (by decide) (by decide) (by decide) (by decide)⟩

/-- C6: for every existing order id and ANY status string (accepted
verbatim), the status update rewrites exactly the matched record's
`status` (to the given string) and `updated_at` (to the current time);
every other field of that record keeps its value and every other
record of the collection is untouched. -/
theorem update_status_changes_only_status_and_updated_at
    (st : Store) (idStr status : String) (now : Int) (oidHex : String)
    (pre post : List Doc) (d : Doc)
    (hparse : parseObjectId idStr = some oidHex)
    (hok : st.failing = false)
    (hcol : st.col = pre ++ d :: post)
    (hpre : ∀ d' ∈ pre, docIdMatches d' oidHex = false)
    (hd : docIdMatches d oidHex = true) :
    ∃ d', (update_order_status st idStr status now).2.col = pre ++ d' :: post ∧
      getVal d' "status" = some (BVal.str status) ∧
      getVal d' "updated_at" = some (BVal.dt now) ∧
      ∀ k, k ≠ "status" → k ≠ "updated_at" → getVal d' k = getVal d k := by
  have hupd := updateOneCol_first_match pre post d oidHex status now hpre hd
  refine ⟨applySet d status now, ?_, getVal_applySet_status d status now,
    getVal_applySet_updated_at d status now,
    fun k h1 h2 => getVal_applySet_other d status now k h1 h2⟩
  simp only [update_order_status, hparse, hok]
  rw [hcol, hupd]
  simp only [Bool.false_eq_true, if_false, Nat.one_ne_zero]
  cases hser : serialize_id (findDoc (pre ++ applySet d status now :: post) oidHex) with
  | ok out => simp [hser]
  | error e => simp [hser]

/-- Witness for C6: a two-record collection, updating the first-page
record by its id with a brand-new status string. -/
theorem update_status_changes_only_status_and_updated_at_witness :
    parseObjectId "aabbccddeeff001122334455" = some "aabbccddeeff001122334455" ∧
    docIdMatches [("_id", BVal.oid "aabbccddeeff001122334455"),
        ("customer_name", BVal.str "Liam Patel"),
        ("status", BVal.str "processing")] "aabbccddeeff001122334455" = true ∧
    (∃ d', (update_order_status
        { col := [[("_id", BVal.oid "aabbccddeeff001122334455"),
                   ("customer_name", BVal.str "Liam Patel"),
                   ("status", BVal.str "processing")],
                  [("_id", BVal.oid "ffeeddccbbaa998877665544"),
                   ("status", BVal.str "pending")]], failing := false }
        "aabbccddeeff001122334455" "delivered" 99).2.col =
        [] ++ d' :: [[("_id", BVal.oid "ffeeddccbbaa998877665544"),
                      ("status", BVal.str "pending")]] ∧
      getVal d' "status" = some (BVal.str "delivered") ∧
      getVal d' "updated_at" = some (BVal.dt 99) ∧
      ∀ k, k ≠ "status" → k ≠ "updated_at" →
        getVal d' k = getVal [("_id", BVal.oid "aabbccddeeff001122334455"),
          ("customer_name", BVal.str "Liam Patel"),
          ("status", BVal.str "processing")] k) :=
  ⟨by decide, by decide,
   update_status_changes_only_status_and_updated_at _ "aabbccddeeff001122334455"
     "delivered" 99 "aabbccddeeff001122334455" []
     [[("_id", BVal.oid "ffeeddccbbaa998877665544"),
       ("status", BVal.str "pending")]]
     [("_id", BVal.oid "aabbccddeeff001122334455"),
      ("customer_name", BVal.str "Liam Patel"),
      ("status", BVal.str "processing")]
     (by decide) rfl rfl (by simp) (by decide)⟩
